import Mathlib

/-!
Verification of the core logic of `src/NewsApp.js`: the citation formatter
(`formatPerigonResponse`), the streaming answer client (`callPerigonAPI`),
the question generator (`generateQuestion`), the feed aggregation and date
window logic (`fetchFaithNews` / `fetchMainstreamNews`), the per-article
verification trigger (`handleCheckMainstream` together with the
"Go Deeper" button state), and the bias-rating resolver (`getBiasRating`).

The JavaScript is shallowly embedded as executable Lean functions.
Recursive scanners are written with an explicit fuel argument (always
instantiated with a bound derived from the input length) so that every
definition reduces by kernel computation.
-/

/-! ## Character helpers -/

/-- Decimal digit character, as tested by the regex class `\d`. -/
def isDigitCh (c : Char) : Bool := 48 ≤ c.toNat && c.toNat ≤ 57

/-- Whitespace recognized by JavaScript's `String.prototype.trim` and the
regex class `\s` (ASCII part plus NBSP and BOM; the rarer Unicode space
code points never occur in the data handled here). -/
def isWsCh (c : Char) : Bool :=
  c.toNat = 9 || c.toNat = 10 || c.toNat = 11 || c.toNat = 12 ||
  c.toNat = 13 || c.toNat = 32 || c.toNat = 160 || c.toNat = 65279

/-- Whitespace accepted between tokens by strict JSON (`JSON.parse`):
space, tab, line feed, carriage return only. -/
def isJsonWs (c : Char) : Bool :=
  c.toNat = 32 || c.toNat = 9 || c.toNat = 10 || c.toNat = 13

/-- The `{` character, kept as a named constant. -/
def lbraceCh : Char := Char.ofNat 123

/-- The `}` character, kept as a named constant. -/
def rbraceCh : Char := Char.ofNat 125

/-- Numeric value of a decimal digit character. -/
def digitVal (c : Char) : Nat := c.toNat - 48

/-- `parseInt` on a non-empty all-digit capture, as applied to the `(\d+)`
group of the citation regex. -/
def parseDigits (ds : List Char) : Nat :=
  ds.foldl (fun a c => a * 10 + digitVal c) 0

/-! ## CitationFormatter (`formatPerigonResponse`, NewsApp.js lines 135-160) -/

/-- One entry of the `citations` array accumulated during streaming:
minimally `sequenceIndex` and `url` (the formatter reads only these). -/
structure Citation where
  sequenceIndex : Nat
  url : String

/-- The `citationMap` object: `citations.forEach(c => map[c.sequenceIndex] = c.url)`.
A later assignment for the same index overwrites an earlier one. -/
def buildCitationMap (citations : List Citation) : Nat → Option String :=
  citations.foldl (fun m c => fun n => if n = c.sequenceIndex then some c.url else m n)
    (fun _ => none)

/-- Declarative lookup: the url of the last citation in list order whose
`sequenceIndex` is `n` (what "last write wins" means for the map). -/
def lastCitationUrl (citations : List Citation) (n : Nat) : Option String :=
  (citations.reverse.find? (fun c => c.sequenceIndex == n)).map Citation.url

/-- Scan for the closing `**` of a bold span: the shortest prefix matched by
the lazy group `(.*?)` (which cannot cross a newline) followed by `**`.
Returns the group content and the remainder after the closing marker. -/
def findClose : List Char → Option (List Char × List Char)
  | '*' :: '*' :: rest => some ([], rest)
  | '\n' :: _ => none
  | c :: rest => (findClose rest).map (fun p => (c :: p.1, p.2))
  | [] => none

/-- Step 1 of the formatter:
`response.replace(/\*\*(.*?)\*\*/g, '<strong>$1</strong>')`, as a
left-to-right scanner with fuel (fuel `≥` input length always suffices). -/
def replBoldAux : Nat → List Char → List Char
  | 0, cs => cs
  | Nat.succ _, [] => []
  | Nat.succ f, c :: rest =>
    match rest with
    | [] => [c]
    | c2 :: rest2 =>
      if c == '*' && c2 == '*' then
        match findClose rest2 with
        | some (content, rest3) =>
          "<strong>".toList ++ content ++ "</strong>".toList ++ replBoldAux f rest3
        | none => c :: replBoldAux f rest
      else c :: replBoldAux f rest

/-- Bold-marker replacement at full fuel. -/
def replBold (cs : List Char) : List Char := replBoldAux cs.length cs

/-- Try to read a bracket token body after an opening `[`: a non-empty run
of digits immediately followed by `]`. Returns the digits and the
remainder after the `]`. -/
def splitTok (rest : List Char) : Option (List Char × List Char) :=
  match rest.takeWhile isDigitCh with
  | [] => none
  | ds =>
    match rest.dropWhile isDigitCh with
    | e :: rest3 => if e = ']' then some (ds, rest3) else none
    | [] => none

/-- The replacement produced for a matched token `[n]` when the citation
map has a truthy url for `n`:
`<a href="URL" target="_blank" rel="noopener noreferrer">[N]</a>`
where `N` is the `parseInt` result printed back. -/
def linkFor (n : Nat) (url : String) : List Char :=
  "<a href=\"".toList ++ url.toList ++
  "\" target=\"_blank\" rel=\"noopener noreferrer\">[".toList ++
  (Nat.repr n).toList ++ "]</a>".toList

/-- How a matched token `[ds]` is rewritten by the replacer callback:
`parseInt` the digits, look the number up in the map, keep the original
text when the lookup result is absent or falsy (empty string). -/
def tokenRepl (cMap : Nat → Option String) (ds : List Char) : List Char :=
  let n := parseDigits ds
  match cMap n with
  | some url => if url = "" then '[' :: ds ++ [']'] else linkFor n url
  | none => '[' :: ds ++ [']']

/-- Step 2 of the formatter:
`formattedResponse.replace(/\[(\d+)\]/g, callback)`, as a left-to-right
scanner with fuel. At a `[` a maximal digit run followed by `]` is a
match (the regex backtracks to exactly this); otherwise the `[` is copied
and scanning resumes at the next character. -/
def replCitAux (cMap : Nat → Option String) : Nat → List Char → List Char
  | 0, cs => cs
  | Nat.succ _, [] => []
  | Nat.succ f, c :: rest =>
    if c == '[' then
      match splitTok rest with
      | some (ds, rest3) => tokenRepl cMap ds ++ replCitAux cMap f rest3
      | none => c :: replCitAux cMap f rest
    else c :: replCitAux cMap f rest

/-- Citation replacement at full fuel. -/
def replCit (cMap : Nat → Option String) (cs : List Char) : List Char :=
  replCitAux cMap cs.length cs

/-- The citation-replacement transform as the specification words it (the
spec side of the refinement, to be compared with `replCit` over the
code's `citationMap`): scanning the answer text left to right, each
bracket token `[n]` (`n` a digit sequence) is replaced by a hyperlink to
the citation whose `sequenceIndex` equals `n`, the last citation in list
order winning the lookup (`lastCitationUrl`); a token whose index no
citation carries is left unchanged; every other character is copied
verbatim. -/
def specCitationPass (citations : List Citation) : Nat → List Char → List Char
  | 0, cs => cs
  | Nat.succ _, [] => []
  | Nat.succ f, c :: rest =>
    if c == '[' then
      match splitTok rest with
      | some (ds, rest3) =>
        (match lastCitationUrl citations (parseDigits ds) with
         | some url => linkFor (parseDigits ds) url
         | none => '[' :: ds ++ [']']) ++ specCitationPass citations f rest3
      | none => c :: specCitationPass citations f rest
    else c :: specCitationPass citations f rest

/-- The literal prefix of step 3, lowercased. -/
def prLit : List Char := "perigon response:".toList

/-- Case-insensitive prefix match: returns the remainder after the prefix
when every prefix character matches the input lowercased, else `none`. -/
def dropCI : List Char → List Char → Option (List Char)
  | [], cs => some cs
  | p :: ps, c :: cs => if c.toLower = p then dropCI ps cs else none
  | _ :: _, [] => none

/-- Step 3 of the formatter:
`formattedResponse.replace(/^Perigon Response:\s*/i, '')`. -/
def stripPR (cs : List Char) : List Char :=
  match dropCI prLit cs with
  | some rest => rest.dropWhile isWsCh
  | none => cs

/-- Whether the text contains an occurrence of the bold marker `**`
(without one, the bold transform can match nothing). -/
def hasStars : List Char → Bool
  | [] => false
  | c :: rest =>
    match rest with
    | c2 :: _ => (c == '*' && c2 == '*') || hasStars rest
    | [] => false

/-- Whether the text contains a bracket citation token `[n]` (an opening
bracket followed by one or more digits and a closing bracket). -/
def hasTok : List Char → Bool
  | [] => false
  | c :: rest => (c == '[' && (splitTok rest).isSome) || hasTok rest

/-- `formatPerigonResponse(response, citations)` (NewsApp.js lines 135-160).
`response` is `none` for `null`/`undefined`; the guard `if (!response)`
also catches the empty string. -/
def formatPerigonResponse (response : Option String) (citations : List Citation) : String :=
  match response with
  | none => ""
  | some s =>
    if s = "" then ""
    else String.mk (stripPR (replCit (buildCitationMap citations) (replBold s.toList)))

/-! ## QuestionGenerator (`generateQuestion`, NewsApp.js lines 54-84) -/

/-- The sentinel returned by `generateQuestion` when the request or the
response handling fails. -/
def questionFailureMsg : String := "Failed to generate question"

/-- `generateQuestion`: the fetch/parse outcome is either the completion
content (`data.choices[0].message.content`) or a failure; every failure is
caught and becomes the sentinel string instead of a thrown error. -/
def generateQuestion (outcome : Except Unit String) : String :=
  match outcome with
  | Except.ok content => content.trim
  | Except.error _ => questionFailureMsg

/-- The question-handling dataflow of `handleCheckMainstream`
(NewsApp.js lines 286-295): when a cached response exists the handler
returns without calling anything (`none`); otherwise the generated
question, suffixed with " in less than 200 words", is passed to
`callPerigonAPI` unconditionally — there is no check for the sentinel. -/
def handleCheckQuestionFlow (alreadyCached : Bool) (qOutcome : Except Unit String) :
    Option String :=
  if alreadyCached then none
  else some (generateQuestion qOutcome ++ " in less than 200 words")

/-! ## JSON values and `JSON.parse` (subset used by the stream protocol) -/

/-- A parsed JSON value. Numbers are restricted to integer numerals, which
covers every field of the stream protocol (`sequenceIndex` is an integer);
fractional and exponent numerals are outside the model. -/
inductive JVal where
  | jnull : JVal
  | jbool : Bool → JVal
  | jnum : Int → JVal
  | jstr : String → JVal
  | jarr : List JVal → JVal
  | jobj : List (String × JVal) → JVal

/-- Value of a hexadecimal digit, for `\uXXXX` escapes. -/
def hexVal (c : Char) : Option Nat :=
  if 48 ≤ c.toNat && c.toNat ≤ 57 then some (c.toNat - 48)
  else if 97 ≤ c.toNat && c.toNat ≤ 102 then some (c.toNat - 87)
  else if 65 ≤ c.toNat && c.toNat ≤ 70 then some (c.toNat - 55)
  else none

/-- Single-character JSON string escapes. -/
def escCh (e : Char) : Option Char :=
  if e = '"' then some '"'
  else if e = '\\' then some '\\'
  else if e = '/' then some '/'
  else if e = 'b' then some (Char.ofNat 8)
  else if e = 'f' then some (Char.ofNat 12)
  else if e = 'n' then some '\n'
  else if e = 'r' then some '\x0d'
  else if e = 't' then some '\t'
  else none

/-- Body of a JSON string after the opening quote: scan to the closing
quote, decoding escapes; unescaped control characters are rejected, as by
`JSON.parse`. (Lone `\u` surrogate halves map to the null character; the
protocol's frames never use surrogates.) -/
def parseStrBody : List Char → Option (List Char × List Char)
  | '"' :: rest => some ([], rest)
  | '\\' :: 'u' :: h1 :: h2 :: h3 :: h4 :: rest =>
    match hexVal h1, hexVal h2, hexVal h3, hexVal h4 with
    | some a, some b, some c, some d =>
      (parseStrBody rest).map (fun p => (Char.ofNat (((a * 16 + b) * 16 + c) * 16 + d) :: p.1, p.2))
    | _, _, _, _ => none
  | '\\' :: e :: rest =>
    match escCh e with
    | some c => (parseStrBody rest).map (fun p => (c :: p.1, p.2))
    | none => none
  | c :: rest =>
    if c.toNat < 32 then none
    else (parseStrBody rest).map (fun p => (c :: p.1, p.2))
  | [] => none

/-- An integer JSON numeral: optional minus sign, then a digit run. -/
def parseNum (cs : List Char) : Option (Int × List Char) :=
  match cs with
  | '-' :: rest =>
    match rest.takeWhile isDigitCh with
    | [] => none
    | ds => some (-(parseDigits ds : Int), rest.dropWhile isDigitCh)
  | _ =>
    match cs.takeWhile isDigitCh with
    | [] => none
    | ds => some ((parseDigits ds : Int), cs.dropWhile isDigitCh)

mutual

/-- Parse one JSON value (fuel-bounded recursive descent). -/
def parseVal : Nat → List Char → Option (JVal × List Char)
  | 0, _ => none
  | Nat.succ f, cs0 =>
    let cs := cs0.dropWhile isJsonWs
    match cs with
    | '"' :: rest => (parseStrBody rest).map (fun p => (JVal.jstr (String.mk p.1), p.2))
    | 't' :: 'r' :: 'u' :: 'e' :: rest => some (JVal.jbool true, rest)
    | 'f' :: 'a' :: 'l' :: 's' :: 'e' :: rest => some (JVal.jbool false, rest)
    | 'n' :: 'u' :: 'l' :: 'l' :: rest => some (JVal.jnull, rest)
    | '[' :: rest =>
      match rest.dropWhile isJsonWs with
      | ']' :: rest3 => some (JVal.jarr [], rest3)
      | rest2 => (parseItems f rest2).map (fun p => (JVal.jarr p.1, p.2))
    | c :: rest =>
      if c = lbraceCh then
        match rest.dropWhile isJsonWs with
        | c2 :: rest3 =>
          if c2 = rbraceCh then some (JVal.jobj [], rest3)
          else (parseFields f (c2 :: rest3)).map (fun p => (JVal.jobj p.1, p.2))
        | [] => none
      else parseNum cs |>.map (fun p => (JVal.jnum p.1, p.2))
    | [] => none

/-- Parse the items of a non-empty JSON array, up to and including `]`. -/
def parseItems : Nat → List Char → Option (List JVal × List Char)
  | 0, _ => none
  | Nat.succ f, cs =>
    match parseVal f cs with
    | none => none
    | some (v, rest) =>
      match rest.dropWhile isJsonWs with
      | ',' :: rest2 => (parseItems f rest2).map (fun p => (v :: p.1, p.2))
      | ']' :: rest2 => some ([v], rest2)
      | _ => none

/-- Parse the fields of a non-empty JSON object, up to and including `}`. -/
def parseFields : Nat → List Char → Option (List (String × JVal) × List Char)
  | 0, _ => none
  | Nat.succ f, cs0 =>
    match cs0.dropWhile isJsonWs with
    | '"' :: rest =>
      match parseStrBody rest with
      | none => none
      | some (k, rest2) =>
        match rest2.dropWhile isJsonWs with
        | ':' :: rest3 =>
          match parseVal f rest3 with
          | none => none
          | some (v, rest4) =>
            match rest4.dropWhile isJsonWs with
            | ',' :: rest5 => (parseFields f rest5).map (fun p => ((String.mk k, v) :: p.1, p.2))
            | c :: rest5 =>
              if c = rbraceCh then some ([(String.mk k, v)], rest5) else none
            | [] => none
        | _ => none
    | _ => none

end

/-- `JSON.parse(line)`: parse one value and require only whitespace after
it; `none` models the thrown `SyntaxError`. -/
def jsonParse (l : List Char) : Option JVal :=
  match parseVal (2 * l.length + 4) l with
  | some (v, rest) => if rest.all isJsonWs then some v else none
  | none => none

/-- Property read `obj[key]` on a parsed JSON object; on duplicate keys
`JSON.parse` keeps the last occurrence. Reading a property of any
non-object non-null value yields `undefined` (`none`); the one JS case
this function must not be used for is reading off `null`, which throws. -/
def jMember (j : JVal) (k : String) : Option JVal :=
  match j with
  | JVal.jobj fs => (fs.reverse.find? (fun p => p.1 == k)).map Prod.snd
  | _ => none

/-! ## StreamingAnswerClient (`callPerigonAPI`, NewsApp.js lines 86-133) -/

/-- Split on newline characters, like `chunk.split('\n')` (empty pieces
included). -/
def splitNl : List Char → List (List Char)
  | [] => [[]]
  | '\n' :: rest => [] :: splitNl rest
  | c :: rest =>
    match splitNl rest with
    | l :: ls => (c :: l) :: ls
    | [] => [[c]]

/-- JavaScript string coercion of a value being concatenated with `+=`
(fuel-bounded for nested arrays, whose `toString` joins elements with
commas, rendering `null` inside an array as the empty string). -/
def jvalToStrF : Nat → JVal → List Char
  | _, JVal.jstr s => s.toList
  | _, JVal.jnum n => (Int.repr n).toList
  | _, JVal.jbool b => if b then "true".toList else "false".toList
  | _, JVal.jnull => "null".toList
  | _, JVal.jobj _ => "[object Object]".toList
  | 0, JVal.jarr _ => []
  | Nat.succ f, JVal.jarr vs =>
    List.intercalate [','] (vs.map (fun v =>
      match v with
      | JVal.jnull => []
      | v => jvalToStrF f v))

/-- The string appended by `result += parsedLine.content`: `undefined`
when the field is absent, otherwise the JS string coercion of the value.
The fuel is instantiated with the length of the line the value was parsed
from, which bounds its nesting depth (each nesting level consumes at
least one character). -/
def jvalAppendStr (fuel : Nat) : Option JVal → List Char
  | none => "undefined".toList
  | some v => jvalToStrF fuel v

/-- Processing of one non-blank line of a chunk (loop body, NewsApp.js
lines 118-125): `JSON.parse` it (a failure throws, `none`), then dispatch
on `parsedLine.type`. Reading `.type` off a parsed `null` also throws.
Any tag other than `RESPONSE_CHUNK` / `CITATION` leaves the state as is. -/
def procLine (st : List Char × List JVal) (line : List Char) :
    Option (List Char × List JVal) :=
  match jsonParse line with
  | none => none
  | some JVal.jnull => none
  | some j =>
    match jMember j "type" with
    | some (JVal.jstr t) =>
      if t = "RESPONSE_CHUNK" then
        some (st.1 ++ jvalAppendStr line.length (jMember j "content"), st.2)
      else if t = "CITATION" then some (st.1, st.2 ++ [j])
      else some st
    | _ => some st

/-- Processing of one decoded chunk: split on newlines, keep the lines
that are non-blank after trimming, run the loop body over them. An
exception aborts the whole fold. -/
def procChunk (st : List Char × List JVal) (chunk : String) :
    Option (List Char × List JVal) :=
  ((splitNl chunk.toList).filter (fun l => !(l.all isWsCh))).foldlM procLine st

/-- JavaScript `trim` on a character list. -/
def trimChars (l : List Char) : List Char :=
  ((l.dropWhile isWsCh).reverse.dropWhile isWsCh).reverse

/-- The value produced by `callPerigonAPI`: the accumulated answer text
and the citation events collected during streaming. -/
structure PerigonResult where
  content : String
  citations : List JVal

/-- The sentinel result returned when anything in `callPerigonAPI` throws. -/
def perigonFailureMsg : String := "Failed to get response from Perigon API"

/-- `callPerigonAPI`'s read loop (NewsApp.js lines 107-132) over the list
of decoded transport chunks: accumulate text and citations line by line;
on success return the trimmed text; any thrown error (in particular a
`JSON.parse` failure on a non-decodable line) is caught and collapses the
whole call to the sentinel result with no citations. -/
def callPerigonAPI (chunks : List String) : PerigonResult :=
  match chunks.foldlM procChunk (([], []) : List Char × List JVal) with
  | some (res, cits) => { content := String.mk (trimChars res), citations := cits }
  | none => { content := perigonFailureMsg, citations := [] }

/-! ## FeedAggregator, mainstream mode (`fetchMainstreamNews`, NewsApp.js lines 208-237) -/

/-- JavaScript truthiness of a JSON value. -/
def jTruthy : JVal → Bool
  | JVal.jnull => false
  | JVal.jbool b => b
  | JVal.jnum n => n != 0
  | JVal.jstr s => s ≠ ""
  | JVal.jarr _ => true
  | JVal.jobj _ => true

/-- JavaScript `v[0]`. The outer `Option` is the thrown `TypeError` when
`v` is `null`; the inner `Option` is `undefined`. Strings index into
their characters; objects read the property named "0". -/
def jIndex0 : JVal → Option (Option JVal)
  | JVal.jnull => none
  | JVal.jarr vs => some vs.head?
  | JVal.jstr s => some (s.toList.head?.map (fun ch => JVal.jstr (String.mk [ch])))
  | JVal.jobj fs => some ((fs.reverse.find? (fun p => p.1 == "0")).map Prod.snd)
  | JVal.jnum _ => some none
  | JVal.jbool _ => some none

/-- `cluster.hits[0]` for one cluster: reading `.hits` off `null` throws,
an absent/`undefined` `hits` makes the `[0]` index throw, otherwise the
index is taken as in `jIndex0`. -/
def clusterFirstHit (c : JVal) : Option (Option JVal) :=
  match c with
  | JVal.jnull => none
  | c =>
    match jMember c "hits" with
    | none => none
    | some hv => jIndex0 hv

/-- `clusters.map(cluster => cluster.hits[0])`: evaluate the arrow
function on every cluster in order; the first throw aborts the whole
`map`. -/
def firstHitsM : List JVal → Option (List (Option JVal))
  | [] => some []
  | c :: rest =>
    match clusterFirstHit c with
    | none => none
    | some h => (firstHitsM rest).map (fun hs => h :: hs)

/-- Outcome of the mainstream fetch after a successful HTTP response:
either the article list passed to `setNews`, or the catch branch that sets
the feed-level error state. -/
inductive FetchOutcome where
  | news : List JVal → FetchOutcome
  | errored : FetchOutcome

/-- The response-shape handling of `fetchMainstreamNews` (lines 224-230):
when `data.clusters` is a truthy array, take each cluster's first hit,
drop falsy ones (`filter(Boolean)`), and keep at most 18; any other shape
of `data.clusters` sets the article list to `[]`; an exception while
mapping (malformed cluster) is caught and sets the error state. Reading
`.clusters` off a parsed `null` also throws. -/
def mainstreamNormalize (data : JVal) : FetchOutcome :=
  match data with
  | JVal.jnull => FetchOutcome.errored
  | data =>
    match jMember data "clusters" with
    | some (JVal.jarr cl) =>
      match firstHitsM cl with
      | some hs =>
        FetchOutcome.news (((hs.filterMap (fun o => o)).filter jTruthy).take 18)
      | none => FetchOutcome.errored
    | _ => FetchOutcome.news []

/-- A well-formed mainstream response built from per-cluster hit lists:
`{ clusters: [ { hits: [...] }, ... ] }`. -/
def mkMainstreamData (hitss : List (List JVal)) : JVal :=
  JVal.jobj [("clusters", JVal.jarr (hitss.map (fun h => JVal.jobj [("hits", JVal.jarr h)])))]

/-- Every cluster whose hit list is non-empty has a truthy first hit
(articles are objects, hence truthy; this is the well-formedness needed
for `filter(Boolean)` to drop exactly the empty clusters). -/
def headsTruthy (hitss : List (List JVal)) : Bool :=
  hitss.all (fun h =>
    match h.head? with
    | some a => jTruthy a
    | none => true)

/-! ## FeedQueryBuilder: the date window (NewsApp.js lines 183-185 and 210-212) -/

/-- A calendar date as handled by `date-fns` `subDays`/`format` (proleptic
Gregorian, local calendar arithmetic). -/
structure Date where
  year : Int
  month : Nat
  day : Nat

/-- Gregorian leap-year rule. -/
def isLeap (y : Int) : Bool := (y % 4 == 0 && y % 100 != 0) || y % 400 == 0

/-- Number of days of a month (1-based). -/
def daysInMonth (y : Int) (m : Nat) : Nat :=
  match m with
  | 1 => 31
  | 2 => if isLeap y then 29 else 28
  | 3 => 31
  | 4 => 30
  | 5 => 31
  | 6 => 30
  | 7 => 31
  | 8 => 31
  | 9 => 30
  | 10 => 31
  | 11 => 30
  | 12 => 31
  | _ => 30

/-- The previous calendar day. -/
def prevDay (dt : Date) : Date :=
  if 2 ≤ dt.day then ⟨dt.year, dt.month, dt.day - 1⟩
  else if 2 ≤ dt.month then ⟨dt.year, dt.month - 1, daysInMonth dt.year (dt.month - 1)⟩
  else ⟨dt.year - 1, 12, 31⟩

/-- `subDays(today, n)`: step back `n` calendar days. -/
def subDays : Date → Nat → Date
  | dt, 0 => dt
  | dt, Nat.succ n => subDays (prevDay dt) n

/-- Decimal digit character for `k % 10`. -/
def digCh (k : Nat) : Char :=
  (['0', '1', '2', '3', '4', '5', '6', '7', '8', '9'].getD (k % 10) '0')

/-- Two-digit zero-padded field (`MM`, `dd`). -/
def pad2 (n : Nat) : List Char := [digCh (n / 10), digCh n]

/-- Four-digit zero-padded field (`yyyy`); CE years up to 9999, which is
the range the feed UI can produce. -/
def pad4 (n : Nat) : List Char := [digCh (n / 1000), digCh (n / 100), digCh (n / 10), digCh n]

/-- `format(d, 'yyyy-MM-dd')`. -/
def formatYMD (dt : Date) : String :=
  String.mk (pad4 dt.year.toNat ++ '-' :: pad2 dt.month ++ '-' :: pad2 dt.day)

/-- The `from`/`to` pair computed by `fetchFaithNews` (lines 183-185):
`to = format(subDays(today, dateOffset))`,
`from = format(subDays(today, dateOffset + 1))`. -/
def faithWindow (today : Date) (dateOffset : Nat) : String × String :=
  (formatYMD (subDays today (dateOffset + 1)), formatYMD (subDays today dateOffset))

/-- The `from`/`to` pair computed by `fetchMainstreamNews` (lines 210-212),
character-for-character the same computation. -/
def mainstreamWindow (today : Date) (dateOffset : Nat) : String × String :=
  (formatYMD (subDays today (dateOffset + 1)), formatYMD (subDays today dateOffset))

/-- Calendar order on dates (lexicographic year, month, day). -/
def dateLe (a b : Date) : Prop :=
  a.year < b.year ∨ (a.year = b.year ∧
    (a.month < b.month ∨ (a.month = b.month ∧ a.day ≤ b.day)))

instance (a b : Date) : Decidable (dateLe a b) := by
  unfold dateLe
  infer_instance

/-- Shape check: ten characters `DDDD-DD-DD` with `D` a decimal digit. -/
def isYMDShape (s : String) : Bool :=
  match s.toList with
  | [a, b, c, d, e, f, g, h, i, j] =>
    isDigitCh a && isDigitCh b && isDigitCh c && isDigitCh d && e = '-' &&
    isDigitCh f && isDigitCh g && h = '-' && isDigitCh i && isDigitCh j
  | _ => false

/-! ## VerificationCache: the per-article trigger
(`handleCheckMainstream`, lines 286-295, and the "Go Deeper" button,
lines 435-441) -/

/-- Phase of one article's verification request. `awaitingQuestion` and
`streaming` are the phases during which `loadingResponses[id]` is `true`
(set before the first `await`, cleared after the stream completes);
`done` is the phase in which `perigonResponses[id]` is set. -/
inductive VPhase where
  | idle : VPhase
  | awaitingQuestion : VPhase
  | streaming : VPhase
  | done : VPhase
deriving DecidableEq

/-- The per-article verification state of the component, with counters for
the question-generation calls and stream invocations issued per article. -/
structure VerifState where
  phase : Nat → VPhase
  responses : Nat → Option PerigonResult
  qCalls : Nat → Nat
  sCalls : Nat → Nat

/-- Point update of a keyed map. -/
def fupd {α : Type} (f : Nat → α) (k : Nat) (v : α) : Nat → α :=
  fun n => if n = k then v else f n

/-- Events of the single-threaded run: a click on an article's "Go Deeper"
button, the resolution of its `generateQuestion` call, and the completion
of its `callPerigonAPI` stream with a result. -/
inductive VEvent where
  | click : Nat → VEvent
  | questionDone : Nat → VEvent
  | streamDone : Nat → PerigonResult → VEvent

/-- The article identifier an event concerns. -/
def eventId : VEvent → Nat
  | VEvent.click id => id
  | VEvent.questionDone id => id
  | VEvent.streamDone id _ => id

/-- One step of the run-to-completion execution.

A `click` first hits the button's `disabled={loadingResponses[articleId]}`
attribute: while the request is in flight (the loading flag was set before
the handler's first `await` and React flushes it before any further event
is dispatched) the click does nothing. Otherwise `handleCheckMainstream`
runs its guard `if (!perigonResponses[articleId])`: a stored response
(always a truthy object) makes the trigger a no-op; else the loading flag
is set and `generateQuestion` is invoked, suspending the handler.

`questionDone` resumes a suspended handler: `callPerigonAPI` is invoked
and the handler suspends again. `streamDone` stores the result in
`perigonResponses` and clears the loading flag. -/
def vstep (s : VerifState) : VEvent → VerifState
  | VEvent.click id =>
    if s.phase id = VPhase.awaitingQuestion ∨ s.phase id = VPhase.streaming then s
    else if (s.responses id).isSome then s
    else { s with phase := fupd s.phase id VPhase.awaitingQuestion,
                  qCalls := fupd s.qCalls id (s.qCalls id + 1) }
  | VEvent.questionDone id =>
    if s.phase id = VPhase.awaitingQuestion then
      { s with phase := fupd s.phase id VPhase.streaming,
               sCalls := fupd s.sCalls id (s.sCalls id + 1) }
    else s
  | VEvent.streamDone id r =>
    if s.phase id = VPhase.streaming then
      { s with phase := fupd s.phase id VPhase.done,
               responses := fupd s.responses id (some r) }
    else s

/-- Run a sequence of events. -/
def runEvents (s : VerifState) (evs : List VEvent) : VerifState :=
  evs.foldl vstep s

/-! ## SourceMetadataResolver (`getBiasRating`, NewsApp.js lines 282-284) -/

/-- The five-point bias scale of the rating providers. -/
inductive BiasRating where
  | left : BiasRating
  | leanLeft : BiasRating
  | center : BiasRating
  | leanRight : BiasRating
  | right : BiasRating
deriving DecidableEq

/-- The rating fields of a static source record, one per provider, in the
order the code consults them. -/
structure SourceRecord where
  mbfcBiasRating : Option BiasRating
  allSidesBiasRating : Option BiasRating
  adFontesBiasRating : Option BiasRating

/-- `getBiasRating(source)`:
`source?.mbfcBiasRating || source?.allSidesBiasRating || source?.adFontesBiasRating || null`.
The whole argument may be absent (unknown domain). -/
def getBiasRating (source : Option SourceRecord) : Option BiasRating :=
  match source with
  | none => none
  | some s => Option.or (Option.or s.mbfcBiasRating s.allSidesBiasRating) s.adFontesBiasRating

/-! ## Lemmas: dates -/

lemma subDays_succ_comm (n : Nat) : ∀ dt : Date, subDays dt (n + 1) = prevDay (subDays dt n) := by
  induction n with
  | zero => intro dt; rfl
  | succ n ih => intro dt; exact ih (prevDay dt)

lemma prevDay_dateLe (dt : Date) : dateLe (prevDay dt) dt := by
  unfold prevDay dateLe
  split_ifs
  all_goals simp
  all_goals omega

lemma dateLe_trans (a b c : Date) (hab : dateLe a b) (hbc : dateLe b c) : dateLe a c := by
  unfold dateLe at *
  omega

lemma subDays_dateLe (n : Nat) : ∀ dt : Date, dateLe (subDays dt n) dt := by
  induction n with
  | zero =>
    intro dt
    show dateLe dt dt
    unfold dateLe
    omega
  | succ n ih =>
    intro dt
    rw [subDays_succ_comm]
    exact dateLe_trans _ _ _ (prevDay_dateLe (subDays dt n)) (ih dt)

lemma digCh_isDigit (k : Nat) : isDigitCh (digCh k) = true := by
  have h : k % 10 < 10 := Nat.mod_lt _ (by omega)
  obtain ⟨j, hj, hjlt⟩ : ∃ j, k % 10 = j ∧ j < 10 := ⟨_, rfl, h⟩
  unfold digCh
  rw [hj]
  interval_cases j <;> decide

lemma formatYMD_shape (dt : Date) : isYMDShape (formatYMD dt) = true := by
  unfold formatYMD isYMDShape pad4 pad2
  simp [String.toList, digCh_isDigit]

/-! ## C6 -/

/-- Claim C6: for every reference date and every offset `≥ 0`, the feed
window satisfies `from = today - (offset+1)` days and `to = today - offset`
days, hence `from` is the day before `to` and `to ≤ today`; both dates are
serialized in `YYYY-MM-DD` shape, and faith and mainstream mode compute
the identical window. -/
theorem feed_window_spec (today : Date) (offset : Nat) :
    faithWindow today offset = mainstreamWindow today offset
    ∧ (faithWindow today offset).1 = formatYMD (subDays today (offset + 1))
    ∧ (faithWindow today offset).2 = formatYMD (subDays today offset)
    ∧ subDays today (offset + 1) = prevDay (subDays today offset)
    ∧ dateLe (subDays today offset) today
    ∧ isYMDShape (faithWindow today offset).1 = true
    ∧ isYMDShape (faithWindow today offset).2 = true := by
  refine ⟨rfl, rfl, rfl, subDays_succ_comm offset today, subDays_dateLe offset today, ?_, ?_⟩
  · exact formatYMD_shape _
  · exact formatYMD_shape _

/-! ## C10 -/

/-- Claim C10: the formatter applied to an absent (`null`/`undefined`) or
empty answer text returns the empty string, for every citation list. -/
theorem formatter_empty_input (citations : List Citation) :
    formatPerigonResponse none citations = ""
    ∧ formatPerigonResponse (some "") citations = "" := by
  exact ⟨rfl, rfl⟩

/-! ## C9 -/

/-- Claim C9: bias-rating resolution returns the first non-absent rating
in the fixed provider priority order mbfc, then AllSides, then Ad Fontes,
and absent when no field is present (or the record itself is absent); in
particular a record with both primary and secondary fields populated
yields the primary value. -/
theorem bias_rating_priority :
    (∀ (s : SourceRecord) (v : BiasRating),
       s.mbfcBiasRating = some v → getBiasRating (some s) = some v)
    ∧ (∀ (s : SourceRecord) (v : BiasRating),
       s.mbfcBiasRating = none → s.allSidesBiasRating = some v →
       getBiasRating (some s) = some v)
    ∧ (∀ (s : SourceRecord) (v : BiasRating),
       s.mbfcBiasRating = none → s.allSidesBiasRating = none →
       s.adFontesBiasRating = some v → getBiasRating (some s) = some v)
    ∧ (∀ s : SourceRecord,
       s.mbfcBiasRating = none → s.allSidesBiasRating = none →
       s.adFontesBiasRating = none → getBiasRating (some s) = none)
    ∧ getBiasRating none = none := by
  refine ⟨?_, ?_, ?_, ?_, rfl⟩
  · intro s v h
    simp [getBiasRating, h, Option.or]
  · intro s v h1 h2
    simp [getBiasRating, h1, h2, Option.or]
  · intro s v h1 h2 h3
    simp [getBiasRating, h1, h2, h3, Option.or]
  · intro s h1 h2 h3
    simp [getBiasRating, h1, h2, h3, Option.or]

/-- Witness for C9: a record rated by both the primary (mbfc) and
secondary (AllSides) provider resolves to the primary value. -/
theorem bias_rating_priority_witness :
    getBiasRating (some ⟨some BiasRating.left, some BiasRating.center, none⟩)
      = some BiasRating.left :=
  bias_rating_priority.1 ⟨some BiasRating.left, some BiasRating.center, none⟩
    BiasRating.left rfl

/-! ## C5 -/

/-- Counterexample for C5: when question generation fails, the handler
does not short-circuit — the sentinel, suffixed with the length clause, is
passed to the streaming client as the question. -/
theorem question_sentinel_counterexample :
    handleCheckQuestionFlow false (Except.error ())
      = some "Failed to generate question in less than 200 words"
    ∧ handleCheckQuestionFlow false (Except.error ()) ≠ none
    ∧ questionFailureMsg ++ " in less than 200 words"
      = "Failed to generate question in less than 200 words" := by
  refine ⟨rfl, ?_, rfl⟩
  intro h
  simp [handleCheckQuestionFlow] at h

/-- Claim C5 (amended): a question-generation failure yields the sentinel
string instead of throwing, but the downstream stage does not detect it:
for every outcome, an uncached trigger passes the generated string —
sentinel included — suffixed with " in less than 200 words" to the
streaming client; only a cached response short-circuits the flow. -/
theorem question_sentinel_amended :
    generateQuestion (Except.error ()) = questionFailureMsg
    ∧ (∀ q : String, generateQuestion (Except.ok q) = q.trim)
    ∧ (∀ o : Except Unit String,
        handleCheckQuestionFlow false o
          = some (generateQuestion o ++ " in less than 200 words"))
    ∧ (∀ o : Except Unit String, handleCheckQuestionFlow true o = none) := by
  exact ⟨rfl, fun q => rfl, fun o => rfl, fun o => rfl⟩

/-! ## Lemmas: mainstream normalization -/

lemma clusterFirstHit_mk (h : List JVal) :
    clusterFirstHit (JVal.jobj [("hits", JVal.jarr h)]) = some h.head? := rfl

lemma firstHitsM_mk (hitss : List (List JVal)) :
    firstHitsM (hitss.map (fun h => JVal.jobj [("hits", JVal.jarr h)]))
      = some (hitss.map List.head?) := by
  induction hitss with
  | nil => rfl
  | cons h t ih => simp [firstHitsM, clusterFirstHit_mk, ih]

lemma filterMap_id_map_head (hitss : List (List JVal)) :
    (hitss.map List.head?).filterMap (fun o => o) = hitss.filterMap List.head? := by
  rw [List.filterMap_map]
  rfl

lemma filter_truthy_of_heads (hitss : List (List JVal)) (ht : headsTruthy hitss = true) :
    (hitss.filterMap List.head?).filter jTruthy = hitss.filterMap List.head? := by
  rw [List.filter_eq_self]
  intro a ha
  rw [List.mem_filterMap] at ha
  obtain ⟨h, hmem, hh⟩ := ha
  unfold headsTruthy at ht
  rw [List.all_eq_true] at ht
  have h2 := ht h hmem
  rw [hh] at h2
  exact h2

lemma mainstreamNormalize_mk (hitss : List (List JVal)) (ht : headsTruthy hitss = true) :
    mainstreamNormalize (mkMainstreamData hitss)
      = FetchOutcome.news ((hitss.filterMap List.head?).take 18) := by
  have h1 : mainstreamNormalize (mkMainstreamData hitss) =
      match firstHitsM (hitss.map (fun h => JVal.jobj [("hits", JVal.jarr h)])) with
      | some hs => FetchOutcome.news (((hs.filterMap (fun o => o)).filter jTruthy).take 18)
      | none => FetchOutcome.errored := rfl
  rw [h1, firstHitsM_mk hitss]
  show FetchOutcome.news ((((hitss.map List.head?).filterMap (fun o => o)).filter jTruthy).take 18) = _
  rw [filterMap_id_map_head hitss, filter_truthy_of_heads hitss ht]

lemma filterMap_head_length (hitss : List (List JVal)) (hne : ∀ h ∈ hitss, h ≠ []) :
    (hitss.filterMap List.head?).length = hitss.length := by
  induction hitss with
  | nil => rfl
  | cons h t ih =>
    have hh : h ≠ [] := hne h (List.mem_cons_self h t)
    cases h with
    | nil => exact absurd rfl hh
    | cons a h2 =>
      have h3 := ih (fun x hx => hne x (List.mem_cons_of_mem _ hx))
      simp [List.filterMap_cons, h3]

/-! ## C2 -/

/-- Claim C2: mainstream-mode normalization selects the first hit of each
cluster, drops clusters with no hits, preserves cluster order (the result
is exactly the in-order list of first hits of the non-empty clusters,
truncated), and returns at most 18 articles; 25 all-non-empty clusters
truncate to exactly 18; and the concrete cluster list
`[{hits:[A,B]}, {hits:[]}, {hits:[C]}]` normalizes to `[A, C]`. -/
theorem mainstream_normalization_spec :
    (∀ hitss : List (List JVal), headsTruthy hitss = true →
       mainstreamNormalize (mkMainstreamData hitss)
         = FetchOutcome.news ((hitss.filterMap List.head?).take 18)
       ∧ ((hitss.filterMap List.head?).take 18).length ≤ 18)
    ∧ (∀ hitss : List (List JVal), (∀ h ∈ hitss, h ≠ []) → hitss.length = 25 →
       ((hitss.filterMap List.head?).take 18).length = 18)
    ∧ mainstreamNormalize (mkMainstreamData
        [[JVal.jobj [("articleId", JVal.jstr "A")], JVal.jobj [("articleId", JVal.jstr "B")]],
         [],
         [JVal.jobj [("articleId", JVal.jstr "C")]]])
      = FetchOutcome.news
          [JVal.jobj [("articleId", JVal.jstr "A")], JVal.jobj [("articleId", JVal.jstr "C")]] := by
  refine ⟨?_, ?_, rfl⟩
  · intro hitss ht
    exact ⟨mainstreamNormalize_mk hitss ht, List.length_take_le ..⟩
  · intro hitss hne h25
    rw [List.length_take, filterMap_head_length hitss hne, h25]
    decide

/-- Witness for C2: the general normalization theorem applied to the
three-cluster example. -/
theorem mainstream_normalization_spec_witness :
    mainstreamNormalize (mkMainstreamData
        [[JVal.jobj [("articleId", JVal.jstr "A")]], [], [JVal.jobj [("articleId", JVal.jstr "C")]]])
      = FetchOutcome.news
          ((([[JVal.jobj [("articleId", JVal.jstr "A")]], [],
              [JVal.jobj [("articleId", JVal.jstr "C")]]] : List (List JVal)).filterMap
            List.head?).take 18) :=
  (mainstream_normalization_spec.1
    [[JVal.jobj [("articleId", JVal.jstr "A")]], [], [JVal.jobj [("articleId", JVal.jstr "C")]]]
    (by decide)).1

/-! ## C8 -/

/-- Counterexample for C8: a response with a clusters array whose single
cluster lacks a `hits` field is a "response shape lacking a well-formed
clusters array", yet the code throws on `cluster.hits[0]` and lands in the
feed-level error state instead of producing zero results. -/
theorem malformed_cluster_counterexample :
    mainstreamNormalize (JVal.jobj [("clusters", JVal.jarr [JVal.jobj []])])
      = FetchOutcome.errored
    ∧ FetchOutcome.errored ≠ FetchOutcome.news [] := by
  refine ⟨rfl, ?_⟩
  intro h
  exact FetchOutcome.noConfusion h

/-- Claim C8 (amended): a mainstream response whose `clusters` field is
absent, falsy, or not an array yields zero results (empty article list)
rather than an error; but a parsed `null` body, or a clusters array
containing a cluster without an indexable `hits` value, lands in the
feed-level error state instead. -/
theorem malformed_cluster_amended :
    (∀ data : JVal, data ≠ JVal.jnull →
       (∀ cl : List JVal, jMember data "clusters" ≠ some (JVal.jarr cl)) →
       mainstreamNormalize data = FetchOutcome.news [])
    ∧ mainstreamNormalize JVal.jnull = FetchOutcome.errored
    ∧ mainstreamNormalize (JVal.jobj [("clusters", JVal.jarr [JVal.jobj []])])
      = FetchOutcome.errored := by
  refine ⟨?_, rfl, rfl⟩
  intro data hnull hna
  cases data with
  | jnull => exact absurd rfl hnull
  | jbool b => rfl
  | jnum n => rfl
  | jstr s => rfl
  | jarr vs => rfl
  | jobj fs =>
    have hred : mainstreamNormalize (JVal.jobj fs) =
        (match jMember (JVal.jobj fs) "clusters" with
         | some (JVal.jarr cl) =>
           (match firstHitsM cl with
            | some hs =>
              FetchOutcome.news (((hs.filterMap (fun o => o)).filter jTruthy).take 18)
            | none => FetchOutcome.errored)
         | _ => FetchOutcome.news []) := rfl
    rw [hred]
    cases hm : jMember (JVal.jobj fs) "clusters" with
    | none => rfl
    | some v =>
      cases v with
      | jnull => rfl
      | jbool b => rfl
      | jnum n => rfl
      | jstr s => rfl
      | jarr cl => exact absurd hm (hna cl)
      | jobj fs2 => rfl

/-- Witness for C8 (amended): a response object with no `clusters` field
at all yields the empty article list. -/
theorem malformed_cluster_amended_witness :
    mainstreamNormalize (JVal.jobj []) = FetchOutcome.news [] :=
  malformed_cluster_amended.1 (JVal.jobj []) (fun h => JVal.noConfusion h)
    (fun _ h => Option.noConfusion h)

/-! ## Lemmas: verification trigger -/

lemma click_noop_inflight (s : VerifState) (id : Nat)
    (h : s.phase id = VPhase.awaitingQuestion ∨ s.phase id = VPhase.streaming) :
    vstep s (VEvent.click id) = s := by
  simp only [vstep]
  rw [if_pos h]

lemma click_noop_done (s : VerifState) (id : Nat)
    (h : (s.responses id).isSome = true) :
    vstep s (VEvent.click id) = s := by
  simp only [vstep]
  split_ifs
  · rfl
  · rfl

lemma vstep_preserve (s : VerifState) (e : VEvent) (id : Nat) (h : eventId e ≠ id) :
    (vstep s e).phase id = s.phase id ∧ (vstep s e).responses id = s.responses id
    ∧ (vstep s e).qCalls id = s.qCalls id ∧ (vstep s e).sCalls id = s.sCalls id := by
  cases e with
  | click i =>
    have hne : id ≠ i := Ne.symm h
    simp only [vstep]
    split_ifs <;> simp [fupd, hne]
  | questionDone i =>
    have hne : id ≠ i := Ne.symm h
    simp only [vstep]
    split_ifs <;> simp [fupd, hne]
  | streamDone i r =>
    have hne : id ≠ i := Ne.symm h
    simp only [vstep]
    split_ifs <;> simp [fupd, hne]

lemma runEvents_preserve (evs : List VEvent) (id : Nat)
    (h : ∀ e ∈ evs, eventId e ≠ id) (s : VerifState) :
    (runEvents s evs).phase id = s.phase id
    ∧ (runEvents s evs).responses id = s.responses id
    ∧ (runEvents s evs).qCalls id = s.qCalls id
    ∧ (runEvents s evs).sCalls id = s.sCalls id := by
  induction evs generalizing s with
  | nil => exact ⟨rfl, rfl, rfl, rfl⟩
  | cons e t ih =>
    have he := h e (List.mem_cons_self e t)
    have ht := fun x hx => h x (List.mem_cons_of_mem _ hx)
    obtain ⟨p1, p2, p3, p4⟩ := vstep_preserve s e id he
    obtain ⟨q1, q2, q3, q4⟩ := ih ht (vstep s e)
    exact ⟨q1.trans p1, q2.trans p2, q3.trans p3, q4.trans p4⟩

lemma runEvents_cons (s : VerifState) (e : VEvent) (evs : List VEvent) :
    runEvents s (e :: evs) = runEvents (vstep s e) evs := rfl

lemma runEvents_append (s : VerifState) (l1 l2 : List VEvent) :
    runEvents s (l1 ++ l2) = runEvents (runEvents s l1) l2 :=
  List.foldl_append ..

/-! ## C1 -/

/-- Claim C1: a verification trigger while a request for the same article
is in flight or completed is a no-op; in a run that starts from an idle
article, a second trigger arriving before the first request's stream has
completed (any interleaving of other articles' events in between) leaves
exactly one question-generation call and one stream invocation for that
article in total, and the single result is stored. -/
theorem verification_trigger_dedup :
    (∀ (s : VerifState) (id : Nat),
       s.phase id = VPhase.awaitingQuestion ∨ s.phase id = VPhase.streaming →
       vstep s (VEvent.click id) = s)
    ∧ (∀ (s : VerifState) (id : Nat),
       (s.responses id).isSome = true → vstep s (VEvent.click id) = s)
    ∧ (∀ (s0 : VerifState) (id : Nat) (r : PerigonResult) (evs1 evs2 : List VEvent),
       s0.phase id = VPhase.idle → s0.responses id = none →
       s0.qCalls id = 0 → s0.sCalls id = 0 →
       (∀ e ∈ evs1, eventId e ≠ id) → (∀ e ∈ evs2, eventId e ≠ id) →
       ∀ final : VerifState,
         final = runEvents s0 (VEvent.click id ::
           (evs1 ++ VEvent.click id :: (evs2 ++
             [VEvent.questionDone id, VEvent.streamDone id r]))) →
         final.qCalls id = 1 ∧ final.sCalls id = 1 ∧ final.responses id = some r) := by
  refine ⟨click_noop_inflight, click_noop_done, ?_⟩
  intro s0 id r evs1 evs2 hidle hresp hq0 hs0 hevs1 hevs2 final hfinal
  have hC1 : ¬(s0.phase id = VPhase.awaitingQuestion ∨ s0.phase id = VPhase.streaming) := by
    rw [hidle]
    simp
  have hC2 : ¬((s0.responses id).isSome = true) := by
    rw [hresp]
    simp
  have h1 : vstep s0 (VEvent.click id)
      = { s0 with phase := fupd s0.phase id VPhase.awaitingQuestion,
                  qCalls := fupd s0.qCalls id (s0.qCalls id + 1) } := by
    simp only [vstep]
    rw [if_neg hC1, if_neg hC2]
  have f1p : (vstep s0 (VEvent.click id)).phase id = VPhase.awaitingQuestion := by
    rw [h1]
    simp [fupd]
  have f1r : (vstep s0 (VEvent.click id)).responses id = none := by
    rw [h1]
    simpa using hresp
  have f1q : (vstep s0 (VEvent.click id)).qCalls id = 1 := by
    rw [h1]
    simp [fupd, hq0]
  have f1s : (vstep s0 (VEvent.click id)).sCalls id = 0 := by
    rw [h1]
    simpa using hs0
  obtain ⟨g1, g2, g3, g4⟩ := runEvents_preserve evs1 id hevs1 (vstep s0 (VEvent.click id))
  have h3 : vstep (runEvents (vstep s0 (VEvent.click id)) evs1) (VEvent.click id)
      = runEvents (vstep s0 (VEvent.click id)) evs1 :=
    click_noop_inflight _ id (Or.inl (g1.trans f1p))
  obtain ⟨k1, k2, k3, k4⟩ :=
    runEvents_preserve evs2 id hevs2 (runEvents (vstep s0 (VEvent.click id)) evs1)
  set σ4 := runEvents (runEvents (vstep s0 (VEvent.click id)) evs1) evs2 with hσ4
  have p4 : σ4.phase id = VPhase.awaitingQuestion := k1.trans (g1.trans f1p)
  have r4 : σ4.responses id = none := k2.trans (g2.trans f1r)
  have q4 : σ4.qCalls id = 1 := k3.trans (g3.trans f1q)
  have s4 : σ4.sCalls id = 0 := k4.trans (g4.trans f1s)
  have h5 : vstep σ4 (VEvent.questionDone id)
      = { σ4 with phase := fupd σ4.phase id VPhase.streaming,
                  sCalls := fupd σ4.sCalls id (σ4.sCalls id + 1) } := by
    simp only [vstep]
    rw [if_pos p4]
  have f5p : (vstep σ4 (VEvent.questionDone id)).phase id = VPhase.streaming := by
    rw [h5]
    simp [fupd]
  have f5r : (vstep σ4 (VEvent.questionDone id)).responses id = none := by
    rw [h5]
    simpa using r4
  have f5q : (vstep σ4 (VEvent.questionDone id)).qCalls id = 1 := by
    rw [h5]
    simpa using q4
  have f5s : (vstep σ4 (VEvent.questionDone id)).sCalls id = 1 := by
    rw [h5]
    simp [fupd, s4]
  have h6 : ∀ σ5 : VerifState, σ5.phase id = VPhase.streaming →
      vstep σ5 (VEvent.streamDone id r)
        = { σ5 with phase := fupd σ5.phase id VPhase.done,
                    responses := fupd σ5.responses id (some r) } := by
    intro σ5 hp
    simp only [vstep]
    rw [if_pos hp]
  have htr : final = vstep (vstep σ4 (VEvent.questionDone id)) (VEvent.streamDone id r) := by
    rw [hfinal, runEvents_cons, runEvents_append, runEvents_cons, h3, runEvents_append,
      runEvents_cons, runEvents_cons]
    rfl
  refine ⟨?_, ?_, ?_⟩
  · rw [htr, h6 _ f5p]
    simpa using f5q
  · rw [htr, h6 _ f5p]
    simpa using f5s
  · rw [htr, h6 _ f5p]
    simp [fupd]

/-- Witness for C1: a concrete run — article 7 is clicked, an unrelated
article 3 is clicked while the first request is pending, article 7 is
clicked again before its stream completes, then the request resolves:
exactly one question call and one stream call for article 7, result
stored. -/
theorem verification_trigger_dedup_witness :
    (runEvents ⟨fun _ => VPhase.idle, fun _ => none, fun _ => 0, fun _ => 0⟩
      (VEvent.click 7 :: ([VEvent.click 3] ++ VEvent.click 7 :: (([] : List VEvent) ++
        [VEvent.questionDone 7, VEvent.streamDone 7 ⟨"answer", []⟩])))).qCalls 7 = 1
    ∧ (runEvents ⟨fun _ => VPhase.idle, fun _ => none, fun _ => 0, fun _ => 0⟩
      (VEvent.click 7 :: ([VEvent.click 3] ++ VEvent.click 7 :: (([] : List VEvent) ++
        [VEvent.questionDone 7, VEvent.streamDone 7 ⟨"answer", []⟩])))).sCalls 7 = 1
    ∧ (runEvents ⟨fun _ => VPhase.idle, fun _ => none, fun _ => 0, fun _ => 0⟩
      (VEvent.click 7 :: ([VEvent.click 3] ++ VEvent.click 7 :: (([] : List VEvent) ++
        [VEvent.questionDone 7, VEvent.streamDone 7 ⟨"answer", []⟩])))).responses 7
      = some ⟨"answer", []⟩ :=
  verification_trigger_dedup.2.2
    ⟨fun _ => VPhase.idle, fun _ => none, fun _ => 0, fun _ => 0⟩ 7 ⟨"answer", []⟩
    [VEvent.click 3] [] rfl rfl rfl rfl
    (by
      intro e he
      rw [List.mem_singleton] at he
      subst he
      decide)
    (by
      intro e he
      exact absurd he (List.not_mem_nil e))
    _ rfl

/-! ## Lemmas: formatter identity -/

lemma replBoldAux_id : ∀ (f : Nat) (cs : List Char), hasStars cs = false → replBoldAux f cs = cs := by
  intro f
  induction f with
  | zero => intro cs _; rfl
  | succ f ih =>
    intro cs h
    cases cs with
    | nil => rfl
    | cons c rest =>
      cases rest with
      | nil => rfl
      | cons c2 rest2 =>
        rw [show hasStars (c :: c2 :: rest2)
            = ((c == '*' && c2 == '*') || hasStars (c2 :: rest2)) from rfl,
          Bool.or_eq_false_iff] at h
        obtain ⟨hb, hrest⟩ := h
        have hcond : ¬((c == '*' && c2 == '*') = true) := by
          rw [hb]
          simp
        simp only [replBoldAux]
        rw [if_neg hcond]
        exact congrArg (List.cons c) (ih _ hrest)

lemma replCitAux_id (cMap : Nat → Option String) :
    ∀ (f : Nat) (cs : List Char), hasTok cs = false → replCitAux cMap f cs = cs := by
  intro f
  induction f with
  | zero => intro cs _; rfl
  | succ f ih =>
    intro cs h
    cases cs with
    | nil => rfl
    | cons c rest =>
      rw [show hasTok (c :: rest)
          = ((c == '[' && (splitTok rest).isSome) || hasTok rest) from rfl,
        Bool.or_eq_false_iff] at h
      obtain ⟨hb, hrest⟩ := h
      by_cases hc : (c == '[') = true
      · rw [hc, Bool.true_and] at hb
        have hnone : splitTok rest = none := by
          cases hsp : splitTok rest with
          | none => rfl
          | some p =>
            rw [hsp] at hb
            simp at hb
        simp only [replCitAux]
        rw [if_pos hc, hnone]
        exact congrArg (List.cons c) (ih _ hrest)
      · simp only [replCitAux]
        rw [if_neg hc]
        exact congrArg (List.cons c) (ih _ hrest)

lemma stripPR_id (cs : List Char) (h : dropCI prLit cs = none) : stripPR cs = cs := by
  unfold stripPR
  rw [h]

/-! ## C7 -/

/-- Counterexample for C7: the text "Perigon Response: formatting works"
contains no bold marker and no bracket token, yet the formatter does not
return it unchanged — the case-insensitive prefix strip (step 3) removes
its head. -/
theorem formatter_identity_counterexample :
    formatPerigonResponse (some "Perigon Response: formatting works") [] = "formatting works"
    ∧ hasStars "Perigon Response: formatting works".toList = false
    ∧ hasTok "Perigon Response: formatting works".toList = false
    ∧ ("formatting works" : String) ≠ "Perigon Response: formatting works" := by
  refine ⟨by decide, by decide, by decide, by decide⟩

/-- Claim C7 (amended): for every input text containing no bold marker
`**`, no bracket token `[n]`, and not beginning with the case-insensitive
prefix "Perigon Response:", the formatter's output equals its input, for
any citation list. -/
theorem formatter_identity_amended (s : String) (citations : List Citation)
    (h1 : hasStars s.toList = false) (h2 : hasTok s.toList = false)
    (h3 : dropCI prLit s.toList = none) :
    formatPerigonResponse (some s) citations = s := by
  show (if s = "" then ""
    else String.mk (stripPR (replCit (buildCitationMap citations) (replBold s.toList)))) = s
  by_cases hs : s = ""
  · rw [if_pos hs, hs]
  · rw [if_neg hs]
    unfold replCit replBold
    rw [replBoldAux_id _ _ h1, replCitAux_id _ _ _ h2, stripPR_id _ h3]
    rfl

/-- Witness for C7 (amended): a plain text with neither markers nor
prefix passes through the formatter unchanged. -/
theorem formatter_identity_amended_witness :
    formatPerigonResponse (some "just plain text") [⟨1, "https://u"⟩] = "just plain text" :=
  formatter_identity_amended "just plain text" [⟨1, "https://u"⟩]
    (by decide) (by decide) (by decide)

/-! ## Lemmas: citation resolution -/

lemma foldl_cit (cs : List Citation) (m0 : Nat → Option String) (n : Nat) :
    (cs.foldl (fun m c => fun k => if k = c.sequenceIndex then some c.url else m k) m0) n
      = (match cs.reverse.find? (fun c => c.sequenceIndex == n) with
         | some c => some c.url
         | none => m0 n) := by
  induction cs generalizing m0 with
  | nil => rfl
  | cons c rest ih =>
    rw [List.foldl_cons, ih, List.reverse_cons, List.find?_append]
    cases hrev : rest.reverse.find? (fun x => x.sequenceIndex == n) with
    | some cc => simp [Option.or]
    | none =>
      by_cases hn : n = c.sequenceIndex
      · simp [Option.or, List.find?, hn]
      · have hb : (c.sequenceIndex == n) = false := by
          simp [Ne.symm hn]
        simp [Option.or, List.find?, hb, hn]

lemma buildCitationMap_eq_last (cs : List Citation) (n : Nat) :
    buildCitationMap cs n = lastCitationUrl cs n := by
  unfold buildCitationMap lastCitationUrl
  rw [foldl_cit]
  cases cs.reverse.find? (fun c => c.sequenceIndex == n) with
  | some c => rfl
  | none => rfl

lemma hasStars_of_no_star : ∀ cs : List Char, (∀ c ∈ cs, c ≠ '*') → hasStars cs = false := by
  intro cs
  induction cs with
  | nil => intro _; rfl
  | cons c rest ih =>
    intro h
    cases rest with
    | nil => rfl
    | cons c2 rest2 =>
      have hc : c ≠ '*' := h c (List.mem_cons_self c _)
      have hr := ih (fun x hx => h x (List.mem_cons_of_mem _ hx))
      show ((c == '*' && c2 == '*') || hasStars (c2 :: rest2)) = false
      rw [hr]
      simp [hc]

lemma noStars_token (ds : List Char) (h : ds.all isDigitCh = true) :
    hasStars ('[' :: ds ++ [']']) = false := by
  apply hasStars_of_no_star
  intro c hc
  rw [List.mem_append, List.mem_cons, List.mem_singleton] at hc
  rcases hc with (hc | hc) | hc
  · subst hc
    decide
  · rw [List.all_eq_true] at h
    have hd := h c hc
    intro heq
    subst heq
    exact absurd hd (by decide)
  · subst hc
    decide

lemma takeWhile_digits (ds : List Char) (h : ds.all isDigitCh = true) :
    (ds ++ [']']).takeWhile isDigitCh = ds := by
  induction ds with
  | nil => rfl
  | cons d ds2 ih =>
    rw [List.all_cons, Bool.and_eq_true] at h
    obtain ⟨hd, hrest⟩ := h
    simp [List.takeWhile_cons, hd, ih hrest]

lemma dropWhile_digits (ds : List Char) (h : ds.all isDigitCh = true) :
    (ds ++ [']']).dropWhile isDigitCh = [']'] := by
  induction ds with
  | nil => rfl
  | cons d ds2 ih =>
    rw [List.all_cons, Bool.and_eq_true] at h
    obtain ⟨hd, hrest⟩ := h
    simp [List.dropWhile_cons, hd, ih hrest]

lemma splitTok_digits (ds : List Char) (hne : ds ≠ []) (hd : ds.all isDigitCh = true) :
    splitTok (ds ++ [']']) = some (ds, []) := by
  unfold splitTok
  rw [takeWhile_digits ds hd, dropWhile_digits ds hd]
  cases ds with
  | nil => exact absurd rfl hne
  | cons d ds2 => rfl

lemma replCitAux_nil (cMap : Nat → Option String) : ∀ f : Nat, replCitAux cMap f [] = [] := by
  intro f
  cases f <;> rfl

lemma replCit_token (cMap : Nat → Option String) (ds : List Char)
    (hne : ds ≠ []) (hd : ds.all isDigitCh = true) :
    replCit cMap ('[' :: ds ++ [']']) = tokenRepl cMap ds := by
  unfold replCit
  show replCitAux cMap (Nat.succ (ds ++ [']']).length) ('[' :: (ds ++ [']'])) = _
  simp only [replCitAux]
  rw [if_pos (show ('[' == '[') = true from rfl), splitTok_digits ds hne hd]
  show tokenRepl cMap ds ++ replCitAux cMap ((ds ++ [']']).length) [] = tokenRepl cMap ds
  rw [replCitAux_nil]
  exact List.append_nil _

lemma dropCI_pr_none (cs : List Char) (c : Char) (hc : cs.head? = some c)
    (h : c.toLower ≠ 'p') : dropCI prLit cs = none := by
  cases cs with
  | nil => cases hc
  | cons c0 rest =>
    have hc0 : c0 = c := by
      have hc2 : some c0 = some c := hc
      injection hc2
    subst hc0
    show dropCI prLit (c0 :: rest) = none
    rw [show prLit = 'p' :: "erigon response:".toList from rfl]
    simp only [dropCI]
    rw [if_neg h]

lemma dropWhile_len_le (p : Char → Bool) : ∀ l : List Char, (l.dropWhile p).length ≤ l.length := by
  intro l
  induction l with
  | nil => exact Nat.le_refl 0
  | cons c rest ih =>
    rw [List.dropWhile_cons]
    split_ifs
    · exact Nat.le_trans ih (Nat.le_succ _)
    · exact Nat.le_refl _

lemma splitTok_some_len (rest ds rest3 : List Char) (h : splitTok rest = some (ds, rest3)) :
    rest3.length < rest.length := by
  unfold splitTok at h
  cases htw : rest.takeWhile isDigitCh with
  | nil =>
    rw [htw] at h
    cases h
  | cons d ds2 =>
    rw [htw] at h
    simp only [] at h
    cases hdw : rest.dropWhile isDigitCh with
    | nil =>
      rw [hdw] at h
      cases h
    | cons e rest4 =>
      rw [hdw] at h
      simp only [] at h
      by_cases he : e = ']'
      · rw [if_pos he] at h
        have hp : ((d :: ds2, rest4) : List Char × List Char) = (ds, rest3) := by
          injection h
        have hr : rest4 = rest3 := congrArg Prod.snd hp
        have hlen := dropWhile_len_le isDigitCh rest
        rw [hdw] at hlen
        rw [← hr]
        simp only [List.length_cons] at hlen
        omega
      · rw [if_neg he] at h
        cases h

lemma replCitAux_fuel (cMap : Nat → Option String) :
    ∀ (f g : Nat) (cs : List Char), cs.length ≤ f → cs.length ≤ g →
      replCitAux cMap f cs = replCitAux cMap g cs := by
  intro f
  induction f with
  | zero =>
    intro g cs h _
    cases cs with
    | nil => rw [replCitAux_nil, replCitAux_nil]
    | cons c rest => simp at h
  | succ f ih =>
    intro g cs h hg
    cases cs with
    | nil => rw [replCitAux_nil, replCitAux_nil]
    | cons c rest =>
      cases g with
      | zero => simp at hg
      | succ g2 =>
        have hr : rest.length ≤ f := by
          simp only [List.length_cons] at h
          omega
        have hrg : rest.length ≤ g2 := by
          simp only [List.length_cons] at hg
          omega
        by_cases hc : (c == '[') = true
        · simp only [replCitAux]
          rw [if_pos hc, if_pos hc]
          cases hsp : splitTok rest with
          | none => exact congrArg (List.cons c) (ih g2 rest hr hrg)
          | some p =>
            obtain ⟨ds, rest3⟩ := p
            have hlen := splitTok_some_len rest ds rest3 hsp
            exact congrArg (fun x => tokenRepl cMap ds ++ x)
              (ih g2 rest3 (by omega) (by omega))
        · simp only [replCitAux]
          rw [if_neg hc, if_neg hc]
          exact congrArg (List.cons c) (ih g2 rest hr hrg)

lemma replCitAux_ge (cMap : Nat → Option String) (f : Nat) (cs : List Char)
    (h : cs.length ≤ f) : replCitAux cMap f cs = replCit cMap cs :=
  replCitAux_fuel cMap f cs.length cs h (Nat.le_refl _)

lemma takeWhile_digits_gen (ds b : List Char) (h : ds.all isDigitCh = true) :
    (ds ++ ']' :: b).takeWhile isDigitCh = ds := by
  induction ds with
  | nil => rfl
  | cons d ds2 ih =>
    rw [List.all_cons, Bool.and_eq_true] at h
    obtain ⟨hd, hrest⟩ := h
    simp [List.takeWhile_cons, hd, ih hrest]

lemma dropWhile_digits_gen (ds b : List Char) (h : ds.all isDigitCh = true) :
    (ds ++ ']' :: b).dropWhile isDigitCh = ']' :: b := by
  induction ds with
  | nil => rfl
  | cons d ds2 ih =>
    rw [List.all_cons, Bool.and_eq_true] at h
    obtain ⟨hd, hrest⟩ := h
    simp [List.dropWhile_cons, hd, ih hrest]

lemma splitTok_token (ds b : List Char) (hne : ds ≠ []) (hd : ds.all isDigitCh = true) :
    splitTok (ds ++ ']' :: b) = some (ds, b) := by
  unfold splitTok
  rw [takeWhile_digits_gen ds b hd, dropWhile_digits_gen ds b hd]
  cases ds with
  | nil => exact absurd rfl hne
  | cons d ds2 => rfl

lemma replCit_copy (cMap : Nat → Option String) :
    ∀ (a b : List Char), (∀ c ∈ a, c ≠ '[') →
      replCit cMap (a ++ b) = a ++ replCit cMap b := by
  intro a
  induction a with
  | nil => intro b _; rfl
  | cons c a2 ih =>
    intro b h
    have hc : ¬((c == '[') = true) := by
      simp [h c (List.mem_cons_self c _)]
    show replCitAux cMap (Nat.succ (a2 ++ b).length) (c :: (a2 ++ b)) = _
    simp only [replCitAux]
    rw [if_neg hc]
    show c :: replCit cMap (a2 ++ b) = (c :: a2) ++ replCit cMap b
    rw [ih b (fun x hx => h x (List.mem_cons_of_mem _ hx))]
    rfl

lemma replCit_token_gen (cMap : Nat → Option String) (ds b : List Char)
    (hne : ds ≠ []) (hd : ds.all isDigitCh = true) :
    replCit cMap ('[' :: ds ++ ']' :: b) = tokenRepl cMap ds ++ replCit cMap b := by
  show replCitAux cMap (Nat.succ (ds ++ ']' :: b).length) ('[' :: (ds ++ ']' :: b)) = _
  simp only [replCitAux]
  rw [if_pos (show ('[' == '[') = true from rfl), splitTok_token ds b hne hd]
  show tokenRepl cMap ds ++ replCitAux cMap ((ds ++ ']' :: b).length) b = _
  rw [replCitAux_ge cMap _ b (by simp only [List.length_append, List.length_cons]; omega)]

lemma lastCitationUrl_ne_empty (citations : List Citation)
    (hurl : ∀ c ∈ citations, c.url ≠ "") (n : Nat) (url : String)
    (h : lastCitationUrl citations n = some url) : url ≠ "" := by
  unfold lastCitationUrl at h
  rw [Option.map_eq_some'] at h
  obtain ⟨c, hc1, hc2⟩ := h
  exact hc2 ▸ hurl c (List.mem_reverse.mp (List.mem_of_find?_eq_some hc1))

lemma replCitAux_eq_spec (citations : List Citation)
    (hurl : ∀ c ∈ citations, c.url ≠ "") :
    ∀ (f : Nat) (cs : List Char),
      replCitAux (buildCitationMap citations) f cs = specCitationPass citations f cs := by
  intro f
  induction f with
  | zero => intro cs; rfl
  | succ f ih =>
    intro cs
    cases cs with
    | nil => rfl
    | cons c rest =>
      by_cases hc : (c == '[') = true
      · simp only [replCitAux, specCitationPass]
        rw [if_pos hc, if_pos hc]
        cases hsp : splitTok rest with
        | none => exact congrArg (List.cons c) (ih rest)
        | some p =>
          obtain ⟨ds, rest3⟩ := p
          simp only []
          rw [ih rest3]
          congr 1
          unfold tokenRepl
          show (match buildCitationMap citations (parseDigits ds) with
            | some url => if url = "" then '[' :: ds ++ [']'] else linkFor (parseDigits ds) url
            | none => '[' :: ds ++ [']']) = _
          rw [buildCitationMap_eq_last]
          cases hlast : lastCitationUrl citations (parseDigits ds) with
          | none => rfl
          | some url =>
            simp only []
            rw [if_neg (lastCitationUrl_ne_empty citations hurl (parseDigits ds) url hlast)]
      · simp only [replCitAux, specCitationPass]
        rw [if_neg hc, if_neg hc]
        exact congrArg (List.cons c) (ih rest)

/-! ## C3 -/

/-- Claim C3: the formatter resolves each bracket token `[n]` against the
citation whose `sequenceIndex` equals `n`, with the last citation in list
order winning the lookup, replacing hits by the hyperlink labeled `[n]`
and leaving misses unchanged — for every answer text and citation list.

First conjunct: the built map is exactly the last-write-wins lookup, for
every citation list and index. Second conjunct: for EVERY text, the
code's citation-replacement transform (over the code's `citationMap`)
equals `specCitationPass`, the transform as the claim words it — each
token replaced via the last-in-order citation, misses left unchanged,
everything else copied — so tokens embedded anywhere, in any number, are
covered (citation urls are non-empty, since the code's `if (url)` treats
an empty url as a miss). Third and fourth conjuncts: structural laws for
arbitrary surrounding text — a bracket-free prefix passes through
verbatim, and each embedded token `[ds]` is consumed and rewritten
independently of the rest of the text, for any citation map. Fifth
conjunct: a single-token text through the FULL formatter (all three
steps) resolves per the lookup. Sixth conjunct: "See [1] and [2]" with
the single citation `1 → https://a` links `[1]` and leaves `[2]` as
literal text. -/
theorem citation_formatter_resolution :
    (∀ (citations : List Citation) (n : Nat),
       buildCitationMap citations n = lastCitationUrl citations n)
    ∧ (∀ (citations : List Citation) (text : List Char),
       (∀ c ∈ citations, c.url ≠ "") →
       replCit (buildCitationMap citations) text
         = specCitationPass citations text.length text)
    ∧ (∀ (cMap : Nat → Option String) (a b : List Char),
       (∀ c ∈ a, c ≠ '[') →
       replCit cMap (a ++ b) = a ++ replCit cMap b)
    ∧ (∀ (cMap : Nat → Option String) (ds b : List Char),
       ds ≠ [] → ds.all isDigitCh = true →
       replCit cMap ('[' :: ds ++ ']' :: b) = tokenRepl cMap ds ++ replCit cMap b)
    ∧ (∀ (ds : List Char) (citations : List Citation),
       ds ≠ [] → ds.all isDigitCh = true → (∀ c ∈ citations, c.url ≠ "") →
       formatPerigonResponse (some (String.mk ('[' :: ds ++ [']']))) citations
         = (match lastCitationUrl citations (parseDigits ds) with
            | some url => String.mk (linkFor (parseDigits ds) url)
            | none => String.mk ('[' :: ds ++ [']'])))
    ∧ formatPerigonResponse (some "See [1] and [2]") [⟨1, "https://a"⟩]
      = "See <a href=\"https://a\" target=\"_blank\" rel=\"noopener noreferrer\">[1]</a> and [2]" := by
  refine ⟨buildCitationMap_eq_last,
    fun citations text hurl => replCitAux_eq_spec citations hurl text.length text,
    replCit_copy, replCit_token_gen, ?_, by decide⟩
  intro ds citations hne hdig hurl
  have hs : String.mk ('[' :: ds ++ [']']) ≠ "" := by
    intro h
    exact List.noConfusion (congrArg String.data h)
  show (if String.mk ('[' :: ds ++ [']']) = "" then ""
    else String.mk (stripPR (replCit (buildCitationMap citations)
      (replBold (String.mk ('[' :: ds ++ [']'])).toList)))) = _
  rw [if_neg hs]
  rw [show (String.mk ('[' :: ds ++ [']'])).toList = '[' :: ds ++ [']'] from rfl]
  unfold replBold
  rw [replBoldAux_id _ _ (noStars_token ds hdig), replCit_token _ _ hne hdig]
  unfold tokenRepl
  show String.mk (stripPR (match buildCitationMap citations (parseDigits ds) with
    | some url => if url = "" then '[' :: ds ++ [']'] else linkFor (parseDigits ds) url
    | none => '[' :: ds ++ [']'])) = _
  rw [buildCitationMap_eq_last citations (parseDigits ds)]
  cases hlast : lastCitationUrl citations (parseDigits ds) with
  | none =>
    show String.mk (stripPR ('[' :: ds ++ [']'])) = String.mk ('[' :: ds ++ [']'])
    rw [stripPR_id _ (dropCI_pr_none ('[' :: ds ++ [']']) '[' rfl (by decide))]
  | some url =>
    have hfind := hlast
    unfold lastCitationUrl at hfind
    rw [Option.map_eq_some'] at hfind
    obtain ⟨c, hc1, hc2⟩ := hfind
    have hmem := List.mem_reverse.mp (List.mem_of_find?_eq_some hc1)
    have hu : url ≠ "" := hc2 ▸ hurl c hmem
    show String.mk (stripPR (if url = "" then '[' :: ds ++ [']']
      else linkFor (parseDigits ds) url)) = String.mk (linkFor (parseDigits ds) url)
    rw [if_neg hu,
      stripPR_id _ (dropCI_pr_none (linkFor (parseDigits ds) url) '<' rfl (by decide))]

/-- Witness for C3: on the text "x[2] y [3] z[2]" — two resolvable tokens
embedded in surrounding text plus one miss, with a duplicate index — the
code's pass equals the spec-side pass, and both render the last-in-order
url for `[2]` while leaving `[3]` literal; and the full formatter resolves
a single token `[7]`. -/
theorem citation_formatter_resolution_witness :
    replCit (buildCitationMap [⟨2, "https://a"⟩, ⟨2, "https://b"⟩]) "x[2] y [3] z[2]".toList
      = specCitationPass [⟨2, "https://a"⟩, ⟨2, "https://b"⟩]
          "x[2] y [3] z[2]".toList.length "x[2] y [3] z[2]".toList
    ∧ specCitationPass [⟨2, "https://a"⟩, ⟨2, "https://b"⟩]
        "x[2] y [3] z[2]".toList.length "x[2] y [3] z[2]".toList
      = ("x<a href=\"https://b\" target=\"_blank\" rel=\"noopener noreferrer\">[2]</a> y [3] z<a href=\"https://b\" target=\"_blank\" rel=\"noopener noreferrer\">[2]</a>").toList
    ∧ formatPerigonResponse (some (String.mk ('[' :: ['7'] ++ [']']))) [⟨7, "https://b"⟩]
      = String.mk (linkFor 7 "https://b") := by
  refine ⟨citation_formatter_resolution.2.1 [⟨2, "https://a"⟩, ⟨2, "https://b"⟩]
      "x[2] y [3] z[2]".toList (by decide), by decide, ?_⟩
  have h := citation_formatter_resolution.2.2.2.2.1 ['7'] [⟨7, "https://b"⟩]
    (by decide) (by decide)
    (by
      intro c hc
      rw [List.mem_singleton] at hc
      subst hc
      decide)
  exact h.trans (by decide)

/-! ## C4 -/

/-- Counterexample for C4: a stream whose trailing fragment is not
decodable JSON is not "discarded silently" — `JSON.parse` throws, the
catch swallows the whole read, and the already-accumulated text "Hi" is
replaced by the sentinel failure result. -/
theorem stream_trailing_fragment_counterexample :
    callPerigonAPI ["\x7b\"type\":\"RESPONSE_CHUNK\",\"content\":\"Hi\"\x7d\n\x7b\"ty"]
      = { content := perigonFailureMsg, citations := [] }
    ∧ perigonFailureMsg ≠ "Hi" := by
  exact ⟨rfl, by decide⟩

/-- Claim C4 (amended): a complete-JSON final frame with no trailing
newline is still parsed (first conjunct: the second chunk ends without a
newline and its last frame is appended); a `CITATION` frame is collected
whole (second conjunct); a frame whose tag is neither `RESPONSE_CHUNK` nor
`CITATION` is ignored without error (third conjunct, general); but a
non-decodable line makes the loop body throw (fourth conjunct), which the
surrounding catch converts into the sentinel failure result for the whole
call (fifth conjunct) — the fragment is not discarded silently. -/
theorem stream_read_amended :
    callPerigonAPI ["\x7b\"type\":\"RESPONSE_CHUNK\",\"content\":\"Hello \"\x7d\n",
        "\x7b\"type\":\"OTHER\",\"x\":1\x7d\n\x7b\"type\":\"RESPONSE_CHUNK\",\"content\":\"world\"\x7d"]
      = { content := "Hello world", citations := [] }
    ∧ callPerigonAPI ["\x7b\"type\":\"CITATION\",\"sequenceIndex\":1,\"url\":\"https://a\"\x7d"]
      = { content := "",
          citations := [JVal.jobj [("type", JVal.jstr "CITATION"),
            ("sequenceIndex", JVal.jnum 1), ("url", JVal.jstr "https://a")]] }
    ∧ (∀ (st : List Char × List JVal) (line : List Char) (j : JVal),
        jsonParse line = some j → j ≠ JVal.jnull →
        (∀ t : String, jMember j "type" = some (JVal.jstr t) →
          t ≠ "RESPONSE_CHUNK" ∧ t ≠ "CITATION") →
        procLine st line = some st)
    ∧ (∀ (st : List Char × List JVal) (line : List Char),
        jsonParse line = none → procLine st line = none)
    ∧ (∀ chunks : List String,
        chunks.foldlM procChunk (([], []) : List Char × List JVal) = none →
        callPerigonAPI chunks = { content := perigonFailureMsg, citations := [] }) := by
  refine ⟨rfl, rfl, ?_, ?_, ?_⟩
  · intro st line j h1 h2 h3
    unfold procLine
    rw [h1]
    cases j with
    | jnull => exact absurd rfl h2
    | jbool b => rfl
    | jnum n => rfl
    | jstr s => rfl
    | jarr vs => rfl
    | jobj fs =>
      simp only []
      cases hm : jMember (JVal.jobj fs) "type" with
      | none => rfl
      | some v =>
        cases v with
        | jnull => rfl
        | jbool b => rfl
        | jnum n => rfl
        | jarr vs => rfl
        | jobj fs2 => rfl
        | jstr t =>
          simp only []
          rw [if_neg (h3 t hm).1, if_neg (h3 t hm).2]
  · intro st line h
    unfold procLine
    rw [h]
  · intro chunks h
    unfold callPerigonAPI
    rw [h]

/-- Witness for C4 (amended): an unknown-tag frame is skipped without
error, and a non-decodable fragment makes the loop body throw. -/
theorem stream_read_amended_witness :
    procLine (([], []) : List Char × List JVal) "\x7b\"type\":\"PING\"\x7d".toList
      = some (([], []) : List Char × List JVal)
    ∧ procLine (([], []) : List Char × List JVal) "\x7b\"ty".toList = none := by
  constructor
  · refine stream_read_amended.2.2.1 ([], []) _ (JVal.jobj [("type", JVal.jstr "PING")]) rfl
      (fun h => JVal.noConfusion h) ?_
    intro t ht
    have he : (some (JVal.jstr "PING") : Option JVal) = some (JVal.jstr t) := ht
    injection he with he2
    injection he2 with he3
    subst he3
    exact ⟨by decide, by decide⟩
  · exact stream_read_amended.2.2.2.1 ([], []) _ rfl
